import Mathlib

/-!
Verification development for the "Little Questions, Clear Answers" storybook
application (`src/app.py`).  Strings are modelled as lists of byte values
(`List Nat`); the filesystem as an association list from paths to byte
contents; the external text/image services as oracle functions supplied as
parameters.  All definitions are translated from the Python source.
-/

set_option maxRecDepth 100000

namespace GAIM

/-- ASCII lowercasing of one byte, as Python `str.lower` acts on ASCII. -/
def lowerByte (b : Nat) : Nat := if 65 ≤ b ∧ b ≤ 90 then b + 32 else b

/-- Python `\s` / `str.strip` whitespace bytes (ASCII). -/
def isWs (b : Nat) : Bool :=
  b = 32 || b = 9 || b = 10 || b = 13 || b = 11 || b = 12

/-- Python `str.strip`: drop whitespace from both ends. -/
def strip (l : List Nat) : List Nat :=
  ((l.dropWhile isWs).reverse.dropWhile isWs).reverse

/-! ### SHA-1 (`hashlib.sha1`), on byte lists, words as `Nat` mod 2^32 -/

/-- Truncate to a 32-bit word. -/
def w32 (x : Nat) : Nat := x % 4294967296

/-- 32-bit left rotation. -/
def rotl (n x : Nat) : Nat := w32 ((x <<< n) ||| (x >>> (32 - n)))

/-- Big-endian byte rendering of a value into `k` bytes. -/
def beBytes : Nat → Nat → List Nat
  | 0, _ => []
  | k + 1, v => beBytes k (v >>> 8) ++ [v % 256]

/-- SHA-1 message padding: `0x80`, zeros to 56 mod 64, 8-byte bit length. -/
def sha1pad (msg : List Nat) : List Nat :=
  msg ++ 128 :: (List.replicate ((119 - msg.length % 64) % 64) 0 ++ beBytes 8 (msg.length * 8))

/-- Big-endian 32-bit words from a byte list. -/
def bytesToWords : List Nat → List Nat
  | b0 :: b1 :: b2 :: b3 :: rest =>
      (((b0 * 256 + b1) * 256 + b2) * 256 + b3) :: bytesToWords rest
  | _ => []

/-- Extend the 16-word schedule (kept reversed, newest first) by `k` words. -/
def schedExtend : Nat → List Nat → List Nat
  | 0, rw => rw
  | k + 1, rw =>
      schedExtend k
        (rotl 1 ((rw.getD 2 0) ^^^ (rw.getD 7 0) ^^^ (rw.getD 13 0) ^^^ (rw.getD 15 0)) :: rw)

/-- SHA-1 round function. -/
def sha1f (i b c d : Nat) : Nat :=
  if i < 20 then (b &&& c) ||| ((b ^^^ 4294967295) &&& d)
  else if i < 40 then b ^^^ c ^^^ d
  else if i < 60 then (b &&& c) ||| (b &&& d) ||| (c &&& d)
  else b ^^^ c ^^^ d

/-- SHA-1 round constants. -/
def sha1k (i : Nat) : Nat :=
  if i < 20 then 1518500249 else if i < 40 then 1859775393
  else if i < 60 then 2400959708 else 3395469782

/-- The 80 SHA-1 rounds, folding over the schedule. -/
def sha1Rounds : Nat → List Nat → Nat × Nat × Nat × Nat × Nat → Nat × Nat × Nat × Nat × Nat
  | _, [], s => s
  | i, wi :: rest, (a, b, c, d, e) =>
      sha1Rounds (i + 1) rest
        (w32 (rotl 5 a + sha1f i b c d + e + sha1k i + wi), a, rotl 30 b, c, d)

/-- Compress one 64-byte block into the running state. -/
def sha1Block (h : Nat × Nat × Nat × Nat × Nat) (block : List Nat) :
    Nat × Nat × Nat × Nat × Nat :=
  let w := (schedExtend 64 (bytesToWords block).reverse).reverse
  match h with
  | (h0, h1, h2, h3, h4) =>
    match sha1Rounds 0 w (h0, h1, h2, h3, h4) with
    | (a, b, c, d, e) => (w32 (h0 + a), w32 (h1 + b), w32 (h2 + c), w32 (h3 + d), w32 (h4 + e))

/-- Fold over all 64-byte blocks (fuel-driven; fuel = list length suffices). -/
def sha1Go : Nat → Nat × Nat × Nat × Nat × Nat → List Nat → Nat × Nat × Nat × Nat × Nat
  | 0, h, _ => h
  | _ + 1, h, [] => h
  | fuel + 1, h, l => sha1Go fuel (sha1Block h (l.take 64)) (l.drop 64)

/-- SHA-1 digest of a byte list, as the five 32-bit state words. -/
def sha1Words (msg : List Nat) : Nat × Nat × Nat × Nat × Nat :=
  let p := sha1pad msg
  sha1Go p.length (1732584193, 4023233417, 2562383102, 271733878, 3285377520) p

/-- The `k` big-endian hex digits (values 0–15) of a value. -/
def hexDigitsOf : Nat → Nat → List Nat
  | 0, _ => []
  | k + 1, v => hexDigitsOf k (v >>> 4) ++ [v % 16]

/-- `hashlib.sha1(...).hexdigest()`: 40 hex digits (as digit values). -/
def sha1hex (msg : List Nat) : List Nat :=
  match sha1Words msg with
  | (h0, h1, h2, h3, h4) =>
      hexDigitsOf 8 h0 ++ hexDigitsOf 8 h1 ++ hexDigitsOf 8 h2 ++
      hexDigitsOf 8 h3 ++ hexDigitsOf 8 h4

/-- Decimal digit bytes of a number, as Python `f"{n}"` renders it. -/
def decDigitsGo : Nat → Nat → List Nat
  | 0, _ => []
  | k + 1, v => if v = 0 then [] else decDigitsGo k (v / 10) ++ [48 + v % 10]

/-- Decimal byte rendering of a natural number. -/
def decDigits (n : Nat) : List Nat := if n = 0 then [48] else decDigitsGo n n

/-- The interpolated string `f"{question}|{age}|{tone}"` of `book_key`. -/
def serializeKey (question : List Nat) (age : Nat) (tone : List Nat) : List Nat :=
  question ++ 124 :: (decDigits age ++ 124 :: tone)

/-- ASCII hex digit character of a digit value. -/
def hexChar (d : Nat) : Nat := if d < 10 then 48 + d else 87 + d

/-- `hashlib.sha1(msg).hexdigest()` as an ASCII byte string. -/
def sha1hexStr (msg : List Nat) : List Nat := (sha1hex msg).map hexChar

/-- `book_key(question, age, tone)` from `src/app.py`. -/
def bookKey (question : List Nat) (age : Nat) (tone : List Nat) : List Nat :=
  sha1hexStr (serializeKey question age tone)

/-! ### Filesystem model: association list from paths to byte contents.
A later write for the same path shadows the earlier entry (overwrite). -/

/-- Look a path up in the filesystem. -/
def fsLookup : List (List Nat × List Nat) → List Nat → Option (List Nat)
  | [], _ => none
  | (q, v) :: rest, p => if p = q then some v else fsLookup rest p

/-- Write (or overwrite) a file. -/
def fsWrite (fs : List (List Nat × List Nat)) (p v : List Nat) :
    List (List Nat × List Nat) :=
  (p, v) :: fs

/-- `Path(p).exists()`. -/
def pathExists (fs : List (List Nat × List Nat)) (p : List Nat) : Bool :=
  (fsLookup fs p).isSome

/-! ### Illustration resolver: `generate_image` (filesystem cache) -/

/-- `hashlib.sha1(prompt.encode()).hexdigest()[:12] + ".png"`. -/
def imageFileName (prompt : List Nat) : List Nat :=
  (sha1hexStr prompt).take 12 ++ [46, 112, 110, 103]

/-- Result of one `generate_image` call: the returned path, the filesystem
after the call, and whether the external image service was invoked. -/
structure ImgResult where
  path : List Nat
  fs : List (List Nat × List Nat)
  calledService : Bool
deriving DecidableEq

/-- The fixed style preamble prepended to the scene description
(`"Children's picture book illustration. Soft watercolor style. ..."`);
its exact bytes are irrelevant to every claim, only that it is a fixed
function of the prompt, so it is kept abstract as a named constant list. -/
def stylePreamble (prompt : List Nat) : List Nat := prompt

/-- `generate_image(prompt)` from `src/app.py`: on a cached file of positive
size, return the existing path without an external call; otherwise invoke
the external image service (modelled by `oracle`, covering the API call and
base64 decode) and persist the bytes. -/
def generateImage (oracle : List Nat → Except (List Nat) (List Nat))
    (prompt : List Nat) (fs : List (List Nat × List Nat)) :
    Except (List Nat) ImgResult :=
  if (match fsLookup fs (imageFileName prompt) with
      | some content => decide (0 < content.length)
      | none => false) then
    .ok ⟨imageFileName prompt, fs, false⟩
  else
    match oracle (stylePreamble prompt) with
    | .error e => .error e
    | .ok bytes => .ok ⟨imageFileName prompt, fsWrite fs (imageFileName prompt) bytes, true⟩

/-! ### `clean_explanation_text` -/

/-- Python `str.splitlines` on byte lists (line-break bytes 10–13, 28–30;
`"\r\n"` counts as a single break; no trailing empty line). -/
def isLineBreak (b : Nat) : Bool :=
  b = 10 || b = 11 || b = 12 || b = 13 || b = 28 || b = 29 || b = 30

/-- After a `"\r"`, a following `"\n"` belongs to the same line break. -/
def dropLf : List Nat → List Nat
  | [] => []
  | c :: r => if c = 10 then r else c :: r

theorem dropLf_length (r : List Nat) : (dropLf r).length ≤ r.length := by
  cases r with
  | nil => simp [dropLf]
  | cons c r2 =>
      by_cases h : c = 10 <;> simp [dropLf, h]

/-- Fuel-driven worker for `splitLines`; fuel bounded below by the input
length always suffices, since every step consumes at least one byte. -/
def splitLinesGo : Nat → List Nat → List (List Nat)
  | 0, _ => []
  | _ + 1, [] => []
  | fuel + 1, c :: rest =>
      if isLineBreak c then
        [] :: splitLinesGo fuel (if c = 13 then dropLf rest else rest)
      else
        match splitLinesGo fuel rest with
        | [] => [[c]]
        | l :: ls => (c :: l) :: ls

/-- `text.splitlines()`. -/
def splitLines (l : List Nat) : List (List Nat) := splitLinesGo l.length l

theorem splitLinesGo_fuel :
    ∀ (n : Nat) (l : List Nat), l.length ≤ n → ∀ f1 f2, l.length ≤ f1 →
      l.length ≤ f2 → splitLinesGo f1 l = splitLinesGo f2 l := by
  intro n
  induction n with
  | zero =>
      intro l hl f1 f2 _ _
      have hle : l = [] := List.eq_nil_of_length_eq_zero (Nat.le_zero.mp hl)
      subst hle
      cases f1 <;> cases f2 <;> rfl
  | succ n ih =>
      intro l hl f1 f2 h1 h2
      cases l with
      | nil => cases f1 <;> cases f2 <;> rfl
      | cons c rest =>
          simp only [List.length_cons] at hl h1 h2
          cases f1 with
          | zero => omega
          | succ f1 =>
              cases f2 with
              | zero => omega
              | succ f2 =>
                  simp only [splitLinesGo]
                  by_cases hbr : isLineBreak c = true
                  · simp only [hbr, if_true]
                    have hx : (if c = 13 then dropLf rest else rest).length ≤ rest.length := by
                      split
                      · exact dropLf_length rest
                      · exact Nat.le_refl _
                    rw [ih _ (Nat.le_trans hx (by omega)) f1 f2
                      (Nat.le_trans hx (by omega)) (Nat.le_trans hx (by omega))]
                  · simp only [hbr, Bool.false_eq_true, if_false]
                    rw [ih rest (by omega) f1 f2 (by omega) (by omega)]

/-- Unfolding equation for `splitLines` on a cons cell. -/
theorem splitLines_cons (c : Nat) (rest : List Nat) :
    splitLines (c :: rest) =
      if isLineBreak c then
        [] :: splitLines (if c = 13 then dropLf rest else rest)
      else
        match splitLines rest with
        | [] => [[c]]
        | l :: ls => (c :: l) :: ls := by
  show splitLinesGo (rest.length + 1) (c :: rest) = _
  simp only [splitLinesGo]
  by_cases hbr : isLineBreak c = true
  · simp only [hbr, if_true, splitLines]
    have hx : (if c = 13 then dropLf rest else rest).length ≤ rest.length := by
      split
      · exact dropLf_length rest
      · exact Nat.le_refl _
    rw [splitLinesGo_fuel rest.length _ hx rest.length _ hx (Nat.le_refl _)]
  · simp only [hbr, Bool.false_eq_true, if_false, splitLines]

/-- Does `s` start with `needle`? -/
def listStartsWith : List Nat → List Nat → Bool
  | [], _ => true
  | p :: ps, c :: cs => p == c && listStartsWith ps cs
  | _ :: _, [] => false

/-- Python `needle in s` (substring containment). -/
def containsSub (needle : List Nat) : List Nat → Bool
  | [] => listStartsWith needle []
  | c :: cs => listStartsWith needle (c :: cs) || containsSub needle cs

/-- The fixed denylist of `clean_explanation_text`:
`["illustration", "illustrate", "picture", "image", "drawing", "shows", "depicts"]`. -/
def denylist : List (List Nat) :=
  [[105, 108, 108, 117, 115, 116, 114, 97, 116, 105, 111, 110],
   [105, 108, 108, 117, 115, 116, 114, 97, 116, 101],
   [112, 105, 99, 116, 117, 114, 101],
   [105, 109, 97, 103, 101],
   [100, 114, 97, 119, 105, 110, 103],
   [115, 104, 111, 119, 115],
   [100, 101, 112, 105, 99, 116, 115]]

/-- `any(w in line.lower() for w in denylist)`. -/
def lineBlocked (line : List Nat) : Bool :=
  denylist.any (fun w => containsSub w (line.map lowerByte))

/-- `" ".join(lines)`. -/
def joinWithSpace : List (List Nat) → List Nat
  | [] => []
  | [l] => l
  | l :: ls => l ++ 32 :: joinWithSpace ls

/-- `clean_explanation_text(text)` from `src/app.py`. -/
def cleanExplanationText (text : List Nat) : List Nat :=
  strip (joinWithSpace ((splitLines text).filter (fun l => !lineBlocked l)))

/-! ### Library index: `is_valid_book`, `load_library`, `save_library` -/

/-- One page record `{text, image_path}`. -/
structure Page where
  text : List Nat
  image_path : List Nat
deriving DecidableEq

/-- One book record `{key, title, created_at, pages}`. -/
structure Book where
  key : List Nat
  title : List Nat
  created_at : List Nat
  pages : List Page
deriving DecidableEq

/-- `is_valid_book(book)`: non-empty pages; every page has non-empty text,
a non-empty image path, and the image file exists on disk. -/
def isValidBook (fs : List (List Nat × List Nat)) (book : Book) : Bool :=
  !book.pages.isEmpty &&
  book.pages.all (fun p =>
    !p.text.isEmpty && !p.image_path.isEmpty && pathExists fs p.image_path)

/-- Persistent state seen by the library: the contents of `books.json`
(`none` models an unreadable/corrupt file, where `json.loads` raises) and
the image directory. -/
structure LibState where
  file : Option (List Book)
  images : List (List Nat × List Nat)
deriving DecidableEq

/-- `save_library(lib)`. -/
def saveLibrary (st : LibState) (lib : List Book) : LibState :=
  { st with file := some lib }

/-- `load_library()`: on unreadable JSON return `[]`; otherwise filter out
invalid books and, if any was dropped, rewrite the file. -/
def loadLibrary (st : LibState) : List Book × LibState :=
  match st.file with
  | none => ([], st)
  | some raw =>
      let cleaned := raw.filter (isValidBook st.images)
      if cleaned.length ≠ raw.length then (cleaned, saveLibrary st cleaned)
      else (cleaned, st)

/-! ### Pagination (Previous/Next buttons) -/

/-- Session state: current pages and current page index. -/
structure PageView where
  pages : List Page
  page_index : Nat
deriving DecidableEq

/-- The Previous button: disabled (hence a no-op) at index 0, else
decrements the index. -/
def prevClick (v : PageView) : PageView :=
  if v.page_index = 0 then v else { v with page_index := v.page_index - 1 }

/-- The Next button: disabled (hence a no-op) at the last index, else
increments the index. -/
def nextClick (v : PageView) : PageView :=
  if v.page_index = v.pages.length - 1 then v
  else { v with page_index := v.page_index + 1 }

/-! ### PDF builder: `build_pdf` -/

/-- One rendered A4 canvas: the pasted illustration and the cleaned
narrative text drawn below it (rasterization details of the imaging
library are outside the model). -/
structure Canvas where
  image_path : List Nat
  body : List Nat
deriving DecidableEq

/-- Render one page onto a canvas, as the loop body of `build_pdf` does. -/
def renderPage (p : Page) : Canvas :=
  { image_path := p.image_path, body := cleanExplanationText p.text }

/-- `build_pdf(pages)`: renders one canvas per page, then saves
`images[0]` with `append_images=images[1:]`; on an empty page list the
subscript `images[0]` fails, modelled as `none`. -/
def buildPdf (pages : List Page) : Option (Canvas × List Canvas) :=
  match pages.map renderPage with
  | [] => none
  | i :: rest => some (i, rest)

/-! ### Book generation block (`src/app.py` lines 244–262) -/

/-- Resolve all parsed blocks to pages, threading the image cache; the
first failing illustration aborts the loop (the Python exception
propagates), leaving the files written so far on disk. -/
def resolvePages (oracle : List Nat → Except (List Nat) (List Nat)) :
    List (List Nat × List Nat) → List (List Nat × List Nat) →
    List (List Nat × List Nat) × Except (List Nat) (List Page)
  | [], fs => (fs, .ok [])
  | (text, imgDesc) :: rest, fs =>
      match generateImage oracle (strip imgDesc) fs with
      | .error e => (fs, .error e)
      | .ok r =>
          match resolvePages oracle rest r.fs with
          | (fs2, .error e) => (fs2, .error e)
          | (fs2, .ok pages) =>
              (fs2, .ok ({ text := strip text, image_path := r.path } :: pages))

/-- Durable application state touched by the generate block. -/
structure AppState where
  images : List (List Nat × List Nat)
  file : Option (List Book)
deriving DecidableEq

/-- The generate-book block after parsing: resolve every page's
illustration; only if all pages resolved is the book appended to the
in-memory library and `save_library` called.  An illustration failure
(`.error`) propagates out of the Streamlit script run before any
library mutation. -/
def runGenerateBlock (oracle : List Nat → Except (List Nat) (List Nat))
    (st : AppState) (library : List Book)
    (key title createdAt : List Nat) (blocks : List (List Nat × List Nat)) :
    AppState × Except (List Nat) (Option Book) :=
  match resolvePages oracle blocks st.images with
  | (fs, .error e) => ({ st with images := fs }, .error e)
  | (fs, .ok pages) =>
      if pages.isEmpty then ({ st with images := fs }, .ok none)
      else
        let book : Book :=
          { key := key, title := title, created_at := createdAt, pages := pages }
        ({ images := fs, file := some (library ++ [book]) }, .ok (some book))

/-! ### Helper lemmas -/

theorem fsLookup_write_self (fs : List (List Nat × List Nat)) (p v : List Nat) :
    fsLookup (fsWrite fs p v) p = some v := by
  simp [fsWrite, fsLookup]

/-! ### C1 — book-key normalization -/

/-- C1 counterexample: the questions "Why" and "why" differ only in letter
case, yet with age 3 and tone "Funny" they get different book keys:
`book_key` hashes the raw interpolation without any normalization. -/
theorem bookKey_case_variant_counterexample :
    bookKey [87, 104, 121] 3 [70, 117, 110, 110, 121] ≠
    bookKey [119, 104, 121] 3 [70, 117, 110, 110, 121] := by decide

/-- C1 (amended): the book key is a function of the raw interpolated string
`f"{question}|{age}|{tone}"` alone — inputs with equal serializations get
equal keys — but no case or whitespace normalization is applied to the
question, so case variants hash differently. -/
theorem bookKey_eq_of_serialize_eq (q1 q2 t1 t2 : List Nat) (a1 a2 : Nat)
    (h : serializeKey q1 a1 t1 = serializeKey q2 a2 t2) :
    bookKey q1 a1 t1 = bookKey q2 a2 t2 := by
  unfold bookKey
  rw [h]

/-- Witness for `bookKey_eq_of_serialize_eq`: the inputs
("x", 1, "2|t") and ("x|1", 2, "t") serialize to the same string
"x|1|2|t", hence share a key. -/
theorem bookKey_eq_of_serialize_eq_witness :
    serializeKey [120] 1 [50, 124, 116] = serializeKey [120, 124, 49] 2 [116] ∧
    bookKey [120] 1 [50, 124, 116] = bookKey [120, 124, 49] 2 [116] :=
  ⟨by decide, bookKey_eq_of_serialize_eq _ _ _ _ _ _ (by decide)⟩

/-! ### C2 — illustration resolver idempotence -/

/-- C2: if the image service returns a non-empty image, then after any
first `generate_image` call for a description, a second call with the same
description is a cache hit: it issues no external call, leaves the
filesystem unchanged, and returns the same file reference. -/
theorem generateImage_idempotent
    (oracle : List Nat → Except (List Nat) (List Nat))
    (prompt : List Nat) (fs : List (List Nat × List Nat))
    (b : List Nat) (hb : 0 < b.length)
    (ho : oracle (stylePreamble prompt) = .ok b)
    (r1 : ImgResult) (h1 : generateImage oracle prompt fs = .ok r1) :
    generateImage oracle prompt r1.fs = .ok ⟨r1.path, r1.fs, false⟩ := by
  unfold generateImage at h1 ⊢
  rcases hcache : fsLookup fs (imageFileName prompt) with _ | content
  · rw [hcache] at h1
    simp only [ho] at h1
    cases h1
    simp [fsLookup_write_self, hb]
  · rw [hcache] at h1
    by_cases hlen : 0 < content.length
    · simp only [hlen, decide_eq_true_eq, if_true, decide_eq_true] at h1
      cases h1
      simp [hcache, hlen]
    · simp only [ho, hlen, decide_eq_false, if_false, Bool.false_eq_true,
        if_neg, not_false_eq_true] at h1
      cases h1
      simp [fsLookup_write_self, hb]

/-- Witness for `generateImage_idempotent`: a concrete first call on an
empty cache followed by a second call. -/
theorem generateImage_idempotent_witness :
    0 < [7].length ∧
    (fun _ : List Nat => (Except.ok [7] : Except (List Nat) (List Nat)))
        (stylePreamble [104, 105]) = .ok [7] ∧
    generateImage (fun _ => .ok [7]) [104, 105] [] =
      .ok ⟨imageFileName [104, 105], fsWrite [] (imageFileName [104, 105]) [7], true⟩ ∧
    generateImage (fun _ => .ok [7]) [104, 105]
        (fsWrite [] (imageFileName [104, 105]) [7]) =
      .ok ⟨imageFileName [104, 105], fsWrite [] (imageFileName [104, 105]) [7], false⟩ :=
  ⟨by decide, rfl, rfl,
   generateImage_idempotent (fun _ => .ok [7]) [104, 105] [] [7]
     (by decide) rfl ⟨imageFileName [104, 105], fsWrite [] (imageFileName [104, 105]) [7], true⟩ rfl⟩

/-! ### C9 — zero-byte cache file treated as absent -/

/-- C9: when the cached file for a description exists but is zero bytes,
`generate_image` treats it as absent: it invokes the external service,
overwrites the file with the fresh bytes, and returns the path without
surfacing an error. -/
theorem generateImage_zero_byte_regenerates
    (oracle : List Nat → Except (List Nat) (List Nat))
    (prompt : List Nat) (fs : List (List Nat × List Nat)) (b : List Nat)
    (ho : oracle (stylePreamble prompt) = .ok b)
    (hz : fsLookup fs (imageFileName prompt) = some []) :
    generateImage oracle prompt fs =
      .ok ⟨imageFileName prompt, fsWrite fs (imageFileName prompt) b, true⟩ := by
  unfold generateImage
  rw [hz]
  simp [ho]

/-- Witness for `generateImage_zero_byte_regenerates`: a cache holding a
zero-byte file for the description is overwritten by a fresh service call. -/
theorem generateImage_zero_byte_regenerates_witness :
    fsLookup [(imageFileName [104], [])] (imageFileName [104]) = some [] ∧
    generateImage (fun _ => .ok [5]) [104] [(imageFileName [104], [])] =
      .ok ⟨imageFileName [104], fsWrite [(imageFileName [104], [])] (imageFileName [104]) [5], true⟩ :=
  ⟨by simp [fsLookup],
   generateImage_zero_byte_regenerates (fun _ => .ok [5]) [104]
     [(imageFileName [104], [])] [5] rfl (by simp [fsLookup])⟩

/-! ### C3 — illustration failure aborts the whole book -/

/-- C3: if resolving the illustrations of the parsed blocks fails (the
image service call or decode fails for some page), the generate block
leaves the library file untouched and persists no book: the error
propagates and neither `library.append` nor `save_library` runs. -/
theorem generateBlock_aborts_on_illustration_failure
    (oracle : List Nat → Except (List Nat) (List Nat))
    (st : AppState) (library : List Book)
    (key title createdAt : List Nat) (blocks : List (List Nat × List Nat))
    (e : List Nat)
    (h : (resolvePages oracle blocks st.images).2 = .error e) :
    (runGenerateBlock oracle st library key title createdAt blocks).1.file = st.file ∧
    (runGenerateBlock oracle st library key title createdAt blocks).2 = .error e := by
  unfold runGenerateBlock
  rcases hr : resolvePages oracle blocks st.images with ⟨fs, r⟩
  rw [hr] at h
  cases r with
  | error e2 =>
      cases h
      exact ⟨rfl, rfl⟩
  | ok pages => cases h

/-- Witness for `generateBlock_aborts_on_illustration_failure`: a failing
image service aborts a one-page book and leaves the library file intact. -/
theorem generateBlock_aborts_witness :
    (resolvePages (fun _ => .error [98]) [([97], [99])] (AppState.mk [] (some [])).images).2
      = .error [98] ∧
    (runGenerateBlock (fun _ => .error [98]) (AppState.mk [] (some []))
        [] [107] [116] [100] [([97], [99])]).1.file = some [] ∧
    (runGenerateBlock (fun _ => .error [98]) (AppState.mk [] (some []))
        [] [107] [116] [100] [([97], [99])]).2 = .error [98] :=
  ⟨rfl,
   (generateBlock_aborts_on_illustration_failure (fun _ => .error [98])
      (AppState.mk [] (some [])) [] [107] [116] [100] [([97], [99])] [98] rfl).1,
   (generateBlock_aborts_on_illustration_failure (fun _ => .error [98])
      (AppState.mk [] (some [])) [] [107] [116] [100] [([97], [99])] [98] rfl).2⟩

/-! ### C6 — denylist cleaning -/

/-- `"\n".join(lines)` — used to build a multi-line text from its lines. -/
def joinNL : List (List Nat) → List Nat
  | [] => []
  | [l] => l
  | l :: ls => l ++ 10 :: joinNL ls

theorem splitLines_cons_nb (c : Nat) (rest : List Nat) (h : isLineBreak c = false) :
    splitLines (c :: rest) =
      match splitLines rest with
      | [] => [[c]]
      | l :: ls => (c :: l) :: ls := by
  rw [splitLines_cons]
  simp [h]

theorem splitLines_single (l : List Nat) (h : ∀ c ∈ l, isLineBreak c = false)
    (hne : l ≠ []) : splitLines l = [l] := by
  induction l with
  | nil => exact absurd rfl hne
  | cons c rest ih =>
      rw [splitLines_cons_nb c rest (h c (List.mem_cons_self c rest))]
      cases hr : rest with
      | nil => rfl
      | cons d rest2 =>
          have hrw := ih (fun x hx => h x (List.mem_cons_of_mem c hx)) (by simp [hr])
          rw [hr] at hrw
          rw [hrw]

theorem splitLines_append_nl (l r : List Nat) (h : ∀ c ∈ l, isLineBreak c = false) :
    splitLines (l ++ 10 :: r) = l :: splitLines r := by
  induction l with
  | nil =>
      simp only [List.nil_append]
      rw [splitLines_cons]
      norm_num [isLineBreak]
  | cons c rest ih =>
      have hc := h c (List.mem_cons_self c rest)
      rw [List.cons_append, splitLines_cons_nb c _ hc,
        ih (fun x hx => h x (List.mem_cons_of_mem c hx))]

theorem splitLines_joinNL (lines : List (List Nat))
    (hnb : ∀ l ∈ lines, ∀ c ∈ l, isLineBreak c = false)
    (hlast : lines.getLast? ≠ some []) :
    splitLines (joinNL lines) = lines := by
  induction lines with
  | nil => rfl
  | cons l ls ih =>
      cases ls with
      | nil =>
          have hl : l ≠ [] := by
            intro he
            exact hlast (by simp [he])
          show splitLines (joinNL [l]) = [l]
          rw [show joinNL [l] = l from rfl]
          exact splitLines_single l (hnb l (List.mem_cons_self l [])) hl
      | cons l2 ls2 =>
          rw [show joinNL (l :: l2 :: ls2) = l ++ 10 :: joinNL (l2 :: ls2) from rfl]
          rw [splitLines_append_nl l _ (hnb l (List.mem_cons_self l _))]
          rw [ih (fun x hx => hnb x (List.mem_cons_of_mem l hx))
            (by rw [List.getLast?_cons_cons] at hlast; exact hlast)]

/-- Claim-side word characters (the usual regex word class). -/
def isWordChar (b : Nat) : Bool :=
  (48 ≤ b && b ≤ 57) || (97 ≤ b && b ≤ 122) || (65 ≤ b && b ≤ 90) || b = 95

/-- Claim-side: `w` occurs at the start of `s` as a whole word (its end is
not glued to a further word character). -/
def wholeWordAtStart (w s : List Nat) : Bool :=
  listStartsWith w s &&
  (match s.drop w.length with
   | [] => true
   | c :: _ => !isWordChar c)

/-- Claim-side scan for a whole-word occurrence, tracking whether the
previous character was a word character. -/
def wholeWordScan (w : List Nat) : Bool → List Nat → Bool
  | prevIsWord, [] => !prevIsWord && wholeWordAtStart w []
  | prevIsWord, c :: cs =>
      (!prevIsWord && wholeWordAtStart w (c :: cs)) || wholeWordScan w (isWordChar c) cs

/-- Modelled from the claim's words, for comparison with the code's
substring test: `w` occurs in `s` as a whole word, i.e. an occurrence not
flanked by word characters on either side. -/
def specContainsWholeWord (w s : List Nat) : Bool := wholeWordScan w false s

/-- C6 counterexample: the single-line text "a pilgrimage" contains no
denylisted word as a whole word (case-insensitively), yet
`clean_explanation_text` removes the line (the code tests plain substring
containment, and "pilgrimage" contains "image"), returning the empty
string instead of preserving the line. -/
theorem cleanNarrative_wholeword_counterexample :
    denylist.all (fun w =>
      !specContainsWholeWord w
        ((List.map lowerByte [97, 32, 112, 105, 108, 103, 114, 105, 109, 97, 103, 101]))) = true ∧
    cleanExplanationText [97, 32, 112, 105, 108, 103, 114, 105, 109, 97, 103, 101] = [] ∧
    lineBlocked [97, 32, 112, 105, 108, 103, 114, 105, 109, 97, 103, 101] = true := by
  decide

/-- C6 (amended): `clean_explanation_text` removes exactly the lines
containing a denylisted word as a case-insensitive substring (so a line
whose only hit is inside a larger word, like "pilgrimage" ⊇ "image", is
also removed); the remaining lines are kept in their original relative
order, joined by single spaces, and the result is stripped. -/
theorem cleanNarrative_filters_blocked_lines (lines : List (List Nat))
    (hnb : ∀ l ∈ lines, ∀ c ∈ l, isLineBreak c = false)
    (hlast : lines.getLast? ≠ some []) :
    cleanExplanationText (joinNL lines) =
      strip (joinWithSpace (lines.filter (fun l => !lineBlocked l))) := by
  unfold cleanExplanationText
  rw [splitLines_joinNL lines hnb hlast]

/-- Witness for `cleanNarrative_filters_blocked_lines`: of the lines
"hi" / "a picture" / "bye", only the middle one is denylisted; the output
is "hi bye". -/
theorem cleanNarrative_filters_blocked_lines_witness :
    (∀ l ∈ [[104, 105], [97, 32, 112, 105, 99, 116, 117, 114, 101], [98, 121, 101]],
      ∀ c ∈ l, isLineBreak c = false) ∧
    ([[104, 105], [97, 32, 112, 105, 99, 116, 117, 114, 101], [98, 121, 101]] :
      List (List Nat)).getLast? ≠ some [] ∧
    cleanExplanationText
      (joinNL [[104, 105], [97, 32, 112, 105, 99, 116, 117, 114, 101], [98, 121, 101]]) =
      [104, 105, 32, 98, 121, 101] :=
  ⟨by decide, by decide,
   (cleanNarrative_filters_blocked_lines
      [[104, 105], [97, 32, 112, 105, 99, 116, 117, 114, 101], [98, 121, 101]]
      (by decide) (by decide)).trans (by decide)⟩

/-! ### C7 — library validity and self-healing -/

theorem filter_length_lt {α : Type} (p : α → Bool) (l : List α)
    (h : ∃ b ∈ l, p b = false) : (l.filter p).length < l.length := by
  induction l with
  | nil => rcases h with ⟨b, hb, _⟩; cases hb
  | cons a t ih =>
      rcases h with ⟨b, hb, hpb⟩
      rcases List.mem_cons.mp hb with rfl | hbt
      · rw [List.filter_cons, hpb]
        simp only [List.length_cons, Bool.false_eq_true, if_false]
        exact Nat.lt_succ_of_le (List.length_filter_le p t)
      · by_cases hpa : p a = true
        · rw [List.filter_cons, hpa]
          simp only [List.length_cons, if_true]
          exact Nat.succ_lt_succ (ih ⟨b, hbt, hpb⟩)
        · rw [List.filter_cons]
          simp only [hpa, List.length_cons, Bool.false_eq_true, if_false]
          exact Nat.lt_succ_of_le (List.length_filter_le p t)

/-- C7: every book returned by `load_library` is valid; and when the
stored file holds an invalid entry, the load returns exactly the valid
entries, rewrites the file to exactly those entries, and a subsequent load
reads the rewritten file back unchanged (no further rewrite). -/
theorem loadLibrary_valid_and_self_heal :
    (∀ st : LibState, ∀ b ∈ (loadLibrary st).1, isValidBook st.images b = true) ∧
    (∀ (st : LibState) (raw : List Book), st.file = some raw →
      (∃ b ∈ raw, isValidBook st.images b = false) →
      (loadLibrary st).1 = raw.filter (isValidBook st.images) ∧
      (loadLibrary st).2.file = some (raw.filter (isValidBook st.images)) ∧
      loadLibrary (loadLibrary st).2 = ((loadLibrary st).1, (loadLibrary st).2)) := by
  constructor
  · intro st b hb
    obtain ⟨file, images⟩ := st
    cases file with
    | none => simp [loadLibrary] at hb
    | some raw =>
        simp only [loadLibrary] at hb
        split at hb <;> exact (List.mem_filter.mp hb).2
  · intro st raw hf hex
    have hne : (raw.filter (isValidBook st.images)).length ≠ raw.length :=
      Nat.ne_of_lt (filter_length_lt (isValidBook st.images) raw hex)
    have hload : loadLibrary st =
        (raw.filter (isValidBook st.images),
         saveLibrary st (raw.filter (isValidBook st.images))) := by
      unfold loadLibrary
      rw [hf]
      simp [hne]
    refine ⟨by rw [hload], by rw [hload]; rfl, ?_⟩
    rw [hload]
    have hff : (raw.filter (isValidBook st.images)).filter (isValidBook st.images) =
        raw.filter (isValidBook st.images) := by
      rw [List.filter_filter]
      simp
    show loadLibrary (saveLibrary st (raw.filter (isValidBook st.images))) = _
    unfold loadLibrary saveLibrary
    simp [hff]

/-- Witness for `loadLibrary_valid_and_self_heal`: a file with one valid
book (image "i" present on disk) and one invalid book (image "j" missing)
loads as just the valid book and rewrites the file to it; a second load is
stable. -/
theorem loadLibrary_valid_and_self_heal_witness :
    (LibState.mk (some [Book.mk [107, 49] [116, 49] [100] [Page.mk [97] [105]],
        Book.mk [107, 50] [116, 50] [100] [Page.mk [98] [106]]]) [([105], [1])]).file =
      some [Book.mk [107, 49] [116, 49] [100] [Page.mk [97] [105]],
        Book.mk [107, 50] [116, 50] [100] [Page.mk [98] [106]]] ∧
    (∃ b ∈ [Book.mk [107, 49] [116, 49] [100] [Page.mk [97] [105]],
        Book.mk [107, 50] [116, 50] [100] [Page.mk [98] [106]]],
      isValidBook [([105], [1])] b = false) ∧
    (loadLibrary (LibState.mk (some [Book.mk [107, 49] [116, 49] [100] [Page.mk [97] [105]],
        Book.mk [107, 50] [116, 50] [100] [Page.mk [98] [106]]]) [([105], [1])])).1 =
      [Book.mk [107, 49] [116, 49] [100] [Page.mk [97] [105]]] ∧
    (loadLibrary (LibState.mk (some [Book.mk [107, 49] [116, 49] [100] [Page.mk [97] [105]],
        Book.mk [107, 50] [116, 50] [100] [Page.mk [98] [106]]]) [([105], [1])])).2.file =
      some [Book.mk [107, 49] [116, 49] [100] [Page.mk [97] [105]]] ∧
    loadLibrary (loadLibrary (LibState.mk
        (some [Book.mk [107, 49] [116, 49] [100] [Page.mk [97] [105]],
          Book.mk [107, 50] [116, 50] [100] [Page.mk [98] [106]]]) [([105], [1])])).2 =
      ((loadLibrary (LibState.mk (some [Book.mk [107, 49] [116, 49] [100] [Page.mk [97] [105]],
          Book.mk [107, 50] [116, 50] [100] [Page.mk [98] [106]]]) [([105], [1])])).1,
       (loadLibrary (LibState.mk (some [Book.mk [107, 49] [116, 49] [100] [Page.mk [97] [105]],
          Book.mk [107, 50] [116, 50] [100] [Page.mk [98] [106]]]) [([105], [1])])).2) :=
  ⟨rfl,
   ⟨Book.mk [107, 50] [116, 50] [100] [Page.mk [98] [106]], by decide, by decide⟩,
   ((loadLibrary_valid_and_self_heal.2 _ _ rfl
      ⟨Book.mk [107, 50] [116, 50] [100] [Page.mk [98] [106]], by decide, by decide⟩).1).trans
     (by decide),
   ((loadLibrary_valid_and_self_heal.2 _ _ rfl
      ⟨Book.mk [107, 50] [116, 50] [100] [Page.mk [98] [106]], by decide, by decide⟩).2.1).trans
     (by decide),
   (loadLibrary_valid_and_self_heal.2 _ _ rfl
      ⟨Book.mk [107, 50] [116, 50] [100] [Page.mk [98] [106]], by decide, by decide⟩).2.2⟩

/-! ### C8 — pagination bounds -/

/-- C8: with the current index in bounds, both buttons keep the index in
`[0, pageCount-1]` and leave the page list unchanged (they are total
functions — nothing throws); Previous at index 0 and Next at the last
index are no-ops. -/
theorem pagination_bounds (v : PageView) (h : v.page_index < v.pages.length) :
    ((prevClick v).pages = v.pages ∧ (prevClick v).page_index < v.pages.length) ∧
    ((nextClick v).pages = v.pages ∧ (nextClick v).page_index < v.pages.length) ∧
    (v.page_index = 0 → prevClick v = v) ∧
    (v.page_index = v.pages.length - 1 → nextClick v = v) := by
  unfold prevClick nextClick
  refine ⟨⟨?_, ?_⟩, ⟨?_, ?_⟩, ?_, ?_⟩
  · split <;> rfl
  · split
    · exact h
    · simp only []
      omega
  · split <;> rfl
  · split
    · exact h
    · rename_i hcond
      simp only []
      omega
  · intro h0
    simp [h0]
  · intro hl
    simp [hl]

/-- Witness for `pagination_bounds` at a one-page book on page 0. -/
theorem pagination_bounds_witness :
    (PageView.mk [Page.mk [97] [105]] 0).page_index <
      (PageView.mk [Page.mk [97] [105]] 0).pages.length ∧
    ((prevClick (PageView.mk [Page.mk [97] [105]] 0) =
        PageView.mk [Page.mk [97] [105]] 0) ∧
     (nextClick (PageView.mk [Page.mk [97] [105]] 0) =
        PageView.mk [Page.mk [97] [105]] 0)) :=
  ⟨by decide,
   (pagination_bounds (PageView.mk [Page.mk [97] [105]] 0) (by decide)).2.2.1 rfl,
   (pagination_bounds (PageView.mk [Page.mk [97] [105]] 0) (by decide)).2.2.2 (by decide)⟩

/-! ### C10 — PDF export requires a non-empty page list -/

/-- C10: on a non-empty page list `build_pdf` produces one canvas per page
in input order (and, being a pure function of its input, mutates nothing);
on the empty list the unconditional `images[0]` subscript fails, modelled
as `none`. -/
theorem buildPdf_empty_and_order :
    (∀ pages : List Page, pages ≠ [] →
      ∃ c rest, buildPdf pages = some (c, rest) ∧ c :: rest = pages.map renderPage) ∧
    buildPdf [] = none := by
  constructor
  · intro pages hne
    cases pages with
    | nil => exact absurd rfl hne
    | cons p ps => exact ⟨renderPage p, ps.map renderPage, rfl, rfl⟩
  · rfl

/-- Witness for `buildPdf_empty_and_order` on a concrete one-page list. -/
theorem buildPdf_empty_and_order_witness :
    ([Page.mk [104] [105]] : List Page) ≠ [] ∧
    ∃ c rest, buildPdf [Page.mk [104] [105]] = some (c, rest) ∧
      c :: rest = [Page.mk [104] [105]].map renderPage :=
  ⟨by decide, buildPdf_empty_and_order.1 [Page.mk [104] [105]] (by decide)⟩

/-! ### Response parsing (`re.findall` at `src/app.py` lines 234–238)

The pattern is `<PAGE>\s*<TEXT>(.*?)</TEXT>\s*<IMAGE>(.*?)</IMAGE>` with
`DOTALL | IGNORECASE`.  The functions below implement its `findall`
semantics directly: scan left to right for a match start; at a start, the
lazy group `(.*?)</TEXT>\s*<IMAGE>` commits to the first position where the
whole remainder matches; the second lazy group ends at the first
`</IMAGE>`; scanning resumes after the end of a match, else one byte on. -/

/-- Lowercase marker byte lists: `<page>`, `<text>`, `</text>`, `<image>`,
`</image>`. -/
def mOpenPage : List Nat := [60, 112, 97, 103, 101, 62]

def mOpenText : List Nat := [60, 116, 101, 120, 116, 62]

def mCloseText : List Nat := [60, 47, 116, 101, 120, 116, 62]

def mOpenImage : List Nat := [60, 105, 109, 97, 103, 101, 62]

def mCloseImage : List Nat := [60, 47, 105, 109, 97, 103, 101, 62]

/-- Case-insensitive literal match of a (lowercase) pattern at the start. -/
def matchCI : List Nat → List Nat → Bool
  | [], _ => true
  | _ :: _, [] => false
  | p :: ps, c :: cs => (lowerByte c == p) && matchCI ps cs

/-- Greedy `\s*`: drop the maximal whitespace run. -/
def skipWs : List Nat → List Nat
  | [] => []
  | c :: cs => if isWs c then skipWs cs else c :: cs

/-- Lazy search for the first occurrence of `pat`; returns the bytes before
it and the bytes after it. -/
def splitFirst (pat : List Nat) : List Nat → Option (List Nat × List Nat)
  | [] => if matchCI pat [] then some ([], []) else none
  | c :: cs =>
      if matchCI pat (c :: cs) then some ([], (c :: cs).drop pat.length)
      else (splitFirst pat cs).map (fun pr => (c :: pr.1, pr.2))

/-- Does `</TEXT>\s*<IMAGE>(.*?)</IMAGE>` match at this position?  On
success, the image capture and the remainder after `</IMAGE>`. -/
def tryHere (s : List Nat) : Option (List Nat × List Nat) :=
  if matchCI mCloseText s then
    if matchCI mOpenImage (skipWs (s.drop 7)) then
      splitFirst mCloseImage ((skipWs (s.drop 7)).drop 7)
    else none
  else none

/-- Lazy first group: scan for the first position where the remainder
matches; returns (text capture, image capture, rest after the match). -/
def findTextEnd : List Nat → Option (List Nat × List Nat × List Nat)
  | [] => none
  | c :: cs =>
      match tryHere (c :: cs) with
      | some (d, r) => some ([], d, r)
      | none => (findTextEnd cs).map (fun pr => (c :: pr.1, pr.2.1, pr.2.2))

/-- Does the whole pattern match at this position? -/
def tryBlockHere (s : List Nat) : Option (List Nat × List Nat × List Nat) :=
  if matchCI mOpenPage s then
    if matchCI mOpenText (skipWs (s.drop 6)) then
      findTextEnd ((skipWs (s.drop 6)).drop 6)
    else none
  else none

/-- Fuel-driven `findall` scan; fuel bounded below by the input length
always suffices. -/
def findBlocksGo : Nat → List Nat → List (List Nat × List Nat)
  | 0, _ => []
  | _ + 1, [] => []
  | fuel + 1, c :: cs =>
      match tryBlockHere (c :: cs) with
      | some (t, d, rest) => (t, d) :: findBlocksGo fuel rest
      | none => findBlocksGo fuel cs

/-- `re.findall(pattern, raw)`: the list of (text, image) captures. -/
def findBlocks (s : List Nat) : List (List Nat × List Nat) :=
  findBlocksGo s.length s

/-- The parsed pages: each capture pair stripped, in match order
(`src/app.py` lines 246–250). -/
def parseResponse (raw : List Nat) : List (List Nat × List Nat) :=
  (findBlocks raw).map (fun pr => (strip pr.1, strip pr.2))

/-! #### Length bounds and unfolding equations for the scanner -/

theorem matchCI_length : ∀ pat s, matchCI pat s = true → pat.length ≤ s.length := by
  intro pat
  induction pat with
  | nil => intro s _; exact Nat.zero_le _
  | cons p ps ih =>
      intro s h
      cases s with
      | nil => simp [matchCI] at h
      | cons c cs =>
          simp only [matchCI, Bool.and_eq_true] at h
          simpa using Nat.succ_le_succ (ih cs h.2)

theorem skipWs_length (s : List Nat) : (skipWs s).length ≤ s.length := by
  induction s with
  | nil => exact Nat.le_refl _
  | cons c cs ih =>
      simp only [skipWs]
      split
      · exact Nat.le_succ_of_le ih
      · exact Nat.le_refl _

theorem splitFirst_length (pat : List Nat) :
    ∀ s a r, splitFirst pat s = some (a, r) → r.length ≤ s.length := by
  intro s
  induction s with
  | nil =>
      intro a r h
      simp only [splitFirst] at h
      split at h
      · cases h; exact Nat.le_refl _
      · cases h
  | cons c cs ih =>
      intro a r h
      simp only [splitFirst] at h
      split at h
      · cases h
        simp [Nat.sub_le]
      · cases hs : splitFirst pat cs with
        | none => rw [hs] at h; cases h
        | some pr =>
            rw [hs] at h
            cases h
            exact Nat.le_succ_of_le (ih pr.1 pr.2 (by rw [hs]))

theorem tryHere_length (s d r : List Nat) (h : tryHere s = some (d, r)) :
    r.length ≤ s.length := by
  unfold tryHere at h
  split at h
  · split at h
    · have h1 := splitFirst_length mCloseImage _ d r h
      have h2 : ((skipWs (s.drop 7)).drop 7).length ≤ s.length := by
        have := skipWs_length (s.drop 7)
        have := List.length_drop 7 s
        have := List.length_drop 7 (skipWs (s.drop 7))
        omega
      exact Nat.le_trans h1 h2
    · cases h
  · cases h

theorem findTextEnd_length :
    ∀ s t d r, findTextEnd s = some (t, d, r) → r.length ≤ s.length := by
  intro s
  induction s with
  | nil => intro t d r h; cases h
  | cons c cs ih =>
      intro t d r h
      simp only [findTextEnd] at h
      cases ht : tryHere (c :: cs) with
      | some pr =>
          rw [ht] at h
          cases h
          exact tryHere_length _ _ _ (by rw [ht])
      | none =>
          rw [ht] at h
          cases hf : findTextEnd cs with
          | none => rw [hf] at h; cases h
          | some pr =>
              rw [hf] at h
              cases h
              exact Nat.le_succ_of_le (ih pr.1 pr.2.1 pr.2.2 (by rw [hf]))

theorem tryBlockHere_length (s t d r : List Nat) (h : tryBlockHere s = some (t, d, r)) :
    r.length < s.length := by
  unfold tryBlockHere at h
  split at h
  · rename_i hpage
    split at h
    · have h1 := findTextEnd_length _ t d r h
      have h6 : 6 ≤ s.length := matchCI_length mOpenPage s hpage
      have h2 := skipWs_length (s.drop 6)
      have h3 := List.length_drop 6 s
      have h4 := List.length_drop 6 (skipWs (s.drop 6))
      omega
    · cases h
  · cases h

theorem findBlocksGo_fuel :
    ∀ (n : Nat) (l : List Nat), l.length ≤ n → ∀ f1 f2, l.length ≤ f1 →
      l.length ≤ f2 → findBlocksGo f1 l = findBlocksGo f2 l := by
  intro n
  induction n with
  | zero =>
      intro l hl f1 f2 _ _
      have hle : l = [] := List.eq_nil_of_length_eq_zero (Nat.le_zero.mp hl)
      subst hle
      cases f1 <;> cases f2 <;> rfl
  | succ n ih =>
      intro l hl f1 f2 h1 h2
      cases l with
      | nil => cases f1 <;> cases f2 <;> rfl
      | cons c cs =>
          simp only [List.length_cons] at hl h1 h2
          cases f1 with
          | zero => omega
          | succ f1 =>
              cases f2 with
              | zero => omega
              | succ f2 =>
                  simp only [findBlocksGo]
                  cases ht : tryBlockHere (c :: cs) with
                  | some pr =>
                      obtain ⟨t, d, rest⟩ := pr
                      have hr := tryBlockHere_length (c :: cs) t d rest ht
                      simp only [List.length_cons] at hr
                      show (t, d) :: findBlocksGo f1 rest = (t, d) :: findBlocksGo f2 rest
                      rw [ih rest (by omega) f1 f2 (by omega) (by omega)]
                  | none =>
                      show findBlocksGo f1 cs = findBlocksGo f2 cs
                      rw [ih cs (by omega) f1 f2 (by omega) (by omega)]

/-- Unfolding equation for `findBlocks` on a cons cell. -/
theorem findBlocks_cons (c : Nat) (cs : List Nat) :
    findBlocks (c :: cs) =
      match tryBlockHere (c :: cs) with
      | some pr => (pr.1, pr.2.1) :: findBlocks pr.2.2
      | none => findBlocks cs := by
  show findBlocksGo (cs.length + 1) (c :: cs) = _
  simp only [findBlocksGo]
  cases ht : tryBlockHere (c :: cs) with
  | some pr =>
      obtain ⟨t, d, rest⟩ := pr
      have hr := tryBlockHere_length (c :: cs) t d rest ht
      simp only [List.length_cons] at hr
      show (t, d) :: findBlocksGo cs.length rest = (t, d) :: findBlocks rest
      simp only [findBlocks]
      rw [findBlocksGo_fuel cs.length rest (by omega) cs.length rest.length
        (by omega) (Nat.le_refl _)]
  | none => rfl

/-! #### Byte, case-variant and whitespace lemmas -/

theorem lowerByte_eq_60 (c : Nat) (h : lowerByte c = 60) : c = 60 := by
  unfold lowerByte at h
  split at h
  · omega
  · exact h

theorem isWs_ne_60 (c : Nat) (h : isWs c = true) : c ≠ 60 := by
  intro hc
  subst hc
  exact absurd h (by decide)

theorem matchCI_append_of_var :
    ∀ (v pat r : List Nat), v.map lowerByte = pat → matchCI pat (v ++ r) = true := by
  intro v
  induction v with
  | nil =>
      intro pat r h
      simp only [List.map_nil] at h
      subst h
      rfl
  | cons a v2 ih =>
      intro pat r h
      simp only [List.map_cons] at h
      subst h
      simp only [List.cons_append, matchCI, beq_self_eq_true, Bool.true_and]
      exact ih _ r rfl

theorem var_length (v pat : List Nat) (h : v.map lowerByte = pat) :
    v.length = pat.length := by
  rw [← h, List.length_map]

theorem drop_append_len (v r : List Nat) (n : Nat) (h : v.length = n) :
    (v ++ r).drop n = r := by
  subst h
  exact List.drop_left v r

theorem var_cons (v : List Nat) (p : Nat) (ps : List Nat)
    (h : v.map lowerByte = p :: ps) :
    ∃ a v2, v = a :: v2 ∧ lowerByte a = p ∧ v2.map lowerByte = ps := by
  cases v with
  | nil => simp at h
  | cons a v2 =>
      simp only [List.map_cons, List.cons.injEq] at h
      exact ⟨a, v2, rfl, h.1, h.2⟩

theorem var_mem_ne60 (v pat : List Nat) (h : v.map lowerByte = pat)
    (hp : ∀ p ∈ pat, p ≠ 60) : ∀ c ∈ v, c ≠ 60 := by
  intro c hc hc60
  subst hc60
  exact hp 60 (h ▸ List.mem_map_of_mem lowerByte hc) rfl

theorem matchCI_false_head (pat : List Nat) (p : Nat) (ps : List Nat)
    (hpat : pat = p :: ps) (c : Nat) (cs : List Nat) (h : lowerByte c ≠ p) :
    matchCI pat (c :: cs) = false := by
  subst hpat
  simp [matchCI, h]

theorem matchCI_false_head2 (pat : List Nat) (p1 p2 : Nat) (ps : List Nat)
    (hpat : pat = p1 :: p2 :: ps) (c1 c2 : Nat) (cs : List Nat)
    (h : lowerByte c2 ≠ p2) :
    matchCI pat (c1 :: c2 :: cs) = false := by
  subst hpat
  simp [matchCI, h]

theorem skipWs_append_ws (w r : List Nat) (h : ∀ c ∈ w, isWs c = true) :
    skipWs (w ++ r) = skipWs r := by
  induction w with
  | nil => rfl
  | cons c w2 ih =>
      simp only [List.cons_append, skipWs, h c (List.mem_cons_self c w2), if_true]
      exact ih (fun x hx => h x (List.mem_cons_of_mem c hx))

theorem skipWs_cons_not (c : Nat) (r : List Nat) (h : isWs c = false) :
    skipWs (c :: r) = c :: r := by
  simp [skipWs, h]

/-- `skipWs` on a list headed by a case variant of a marker (which starts
with the non-whitespace byte 60) is the identity. -/
theorem skipWs_var_head (v pat r : List Nat) (hv : v.map lowerByte = 60 :: pat) :
    skipWs (v ++ r) = v ++ r := by
  obtain ⟨a, v2, rfl, ha, _⟩ := var_cons v 60 pat hv
  have ha60 : a = 60 := lowerByte_eq_60 a ha
  subst ha60
  exact skipWs_cons_not 60 (v2 ++ r) (by decide)

/-- `splitFirst` over a 60-free chunk, landing on a case variant of
`</image>`. -/
theorem splitFirst_no60_var (d : List Nat) (hd : ∀ c ∈ d, c ≠ 60)
    (v : List Nat) (hv : v.map lowerByte = mCloseImage) (r : List Nat) :
    splitFirst mCloseImage (d ++ (v ++ r)) = some (d, r) := by
  induction d with
  | nil =>
      obtain ⟨a, v2, hva, ha, hv2⟩ := var_cons v 60 _ hv
      subst hva
      have hm := matchCI_append_of_var (a :: v2) mCloseImage r hv
      simp only [List.nil_append, List.cons_append] at hm ⊢
      simp only [splitFirst]
      rw [hm, if_pos rfl]
      have hd7 : (a :: (v2 ++ r)).drop mCloseImage.length = r := by
        have h8 := drop_append_len (a :: v2) r mCloseImage.length
          (var_length _ _ hv)
        simpa using h8
      rw [hd7]
  | cons c d2 ih =>
      have hc : lowerByte c ≠ 60 := by
        intro h
        exact hd c (List.mem_cons_self c d2) (lowerByte_eq_60 c h)
      simp only [List.cons_append, splitFirst]
      rw [matchCI_false_head mCloseImage 60 _ rfl c _ hc, if_neg (by decide)]
      rw [List.append_eq, ih (fun x hx => hd x (List.mem_cons_of_mem c hx))]
      rfl

/-! #### `tryHere` computations -/

theorem tryHere_cons_ne60 (c : Nat) (cs : List Nat) (h : c ≠ 60) :
    tryHere (c :: cs) = none := by
  have hc : lowerByte c ≠ 60 := fun hl => h (lowerByte_eq_60 c hl)
  unfold tryHere
  rw [matchCI_false_head mCloseText 60 _ rfl c cs hc, if_neg (by decide)]

/-- The success computation: at a case variant of `</text>` followed by
whitespace, a variant of `<image>`, a 60-free image capture, and a variant
of `</image>`, `tryHere` yields the capture and the remainder. -/
theorem tryHere_success (vCT w2 vIm d vCI rest : List Nat)
    (hCT : vCT.map lowerByte = mCloseText)
    (hw2 : ∀ c ∈ w2, isWs c = true)
    (hIm : vIm.map lowerByte = mOpenImage)
    (hd : ∀ c ∈ d, c ≠ 60)
    (hCI : vCI.map lowerByte = mCloseImage) :
    tryHere (vCT ++ (w2 ++ (vIm ++ (d ++ (vCI ++ rest))))) = some (d, rest) := by
  unfold tryHere
  rw [matchCI_append_of_var vCT mCloseText _ hCT, if_pos rfl]
  rw [drop_append_len vCT _ 7 (var_length vCT mCloseText hCT)]
  rw [skipWs_append_ws w2 _ hw2, skipWs_var_head vIm _ _ hIm]
  rw [matchCI_append_of_var vIm mOpenImage _ hIm, if_pos rfl]
  rw [drop_append_len vIm _ 7 (var_length vIm mOpenImage hIm)]
  exact splitFirst_no60_var d hd vCI hCI rest

/-- The failure computation: at a case variant of `</text>`, if after the
greedy whitespace skip the remainder does not start with `<image>`, the
position does not match. -/
theorem tryHere_closeText_none (vCT X : List Nat)
    (hCT : vCT.map lowerByte = mCloseText)
    (hX : matchCI mOpenImage (skipWs X) = false) :
    tryHere (vCT ++ X) = none := by
  unfold tryHere
  rw [matchCI_append_of_var vCT mCloseText _ hCT, if_pos rfl]
  rw [drop_append_len vCT X 7 (var_length vCT mCloseText hCT)]
  rw [hX, if_neg (by decide)]

/-! #### `findTextEnd` computations -/

theorem findTextEnd_cons_none (c : Nat) (cs : List Nat)
    (h : tryHere (c :: cs) = none) :
    findTextEnd (c :: cs) =
      (findTextEnd cs).map (fun pr => (c :: pr.1, pr.2.1, pr.2.2)) := by
  simp only [findTextEnd, h]

theorem findTextEnd_skip_no60 (t : List Nat) (ht : ∀ c ∈ t, c ≠ 60) (s : List Nat) :
    findTextEnd (t ++ s) =
      (findTextEnd s).map (fun pr => (t ++ pr.1, pr.2.1, pr.2.2)) := by
  induction t with
  | nil =>
      cases h : findTextEnd s <;> simp [h]
  | cons c t2 ih =>
      rw [List.cons_append,
        findTextEnd_cons_none c _ (tryHere_cons_ne60 c _ (ht c (List.mem_cons_self c t2))),
        ih (fun x hx => ht x (List.mem_cons_of_mem c hx))]
      cases h : findTextEnd s <;> simp [h]

/-- At a variant of `</text>` heading a successful remainder, `findTextEnd`
commits with an empty text capture. -/
theorem findTextEnd_at_closeText (vCT w2 vIm d vCI rest : List Nat)
    (hCT : vCT.map lowerByte = mCloseText)
    (hw2 : ∀ c ∈ w2, isWs c = true)
    (hIm : vIm.map lowerByte = mOpenImage)
    (hd : ∀ c ∈ d, c ≠ 60)
    (hCI : vCI.map lowerByte = mCloseImage) :
    findTextEnd (vCT ++ (w2 ++ (vIm ++ (d ++ (vCI ++ rest))))) =
      some ([], d, rest) := by
  obtain ⟨a, v2, hva, ha, _⟩ := var_cons vCT 60 _ hCT
  have hth := tryHere_success vCT w2 vIm d vCI rest hCT hw2 hIm hd hCI
  rw [hva] at hth ⊢
  simp only [List.cons_append] at hth ⊢
  simp only [findTextEnd, hth]

/-! #### `tryBlockHere` and `findBlocks` computations -/

theorem tryBlockHere_cons_ne60 (c : Nat) (cs : List Nat) (h : c ≠ 60) :
    tryBlockHere (c :: cs) = none := by
  have hc : lowerByte c ≠ 60 := fun hl => h (lowerByte_eq_60 c hl)
  unfold tryBlockHere
  rw [matchCI_false_head mOpenPage 60 _ rfl c cs hc, if_neg (by decide)]

theorem findBlocks_cons_none (c : Nat) (cs : List Nat)
    (h : tryBlockHere (c :: cs) = none) :
    findBlocks (c :: cs) = findBlocks cs := by
  rw [findBlocks_cons, h]

theorem findBlocks_cons_some (c : Nat) (cs t d rest : List Nat)
    (h : tryBlockHere (c :: cs) = some (t, d, rest)) :
    findBlocks (c :: cs) = (t, d) :: findBlocks rest := by
  rw [findBlocks_cons, h]

theorem findBlocks_skip_no60 (x : List Nat) (hx : ∀ c ∈ x, c ≠ 60) (s : List Nat) :
    findBlocks (x ++ s) = findBlocks s := by
  induction x with
  | nil => rfl
  | cons c x2 ih =>
      rw [List.cons_append,
        findBlocks_cons_none c _ (tryBlockHere_cons_ne60 c _ (hx c (List.mem_cons_self c x2))),
        ih (fun y hy => hx y (List.mem_cons_of_mem c hy))]

theorem findBlocks_skip_ws (w : List Nat) (hw : ∀ c ∈ w, isWs c = true) (s : List Nat) :
    findBlocks (w ++ s) = findBlocks s :=
  findBlocks_skip_no60 w (fun c hc => isWs_ne_60 c (hw c hc)) s

/-- The whole-pattern head computation: at variants of `<page>`,
whitespace, `<text>`, the match continues as `findTextEnd` of the rest. -/
theorem tryBlockHere_page (vP w1 vT X : List Nat)
    (hP : vP.map lowerByte = mOpenPage)
    (hw1 : ∀ c ∈ w1, isWs c = true)
    (hT : vT.map lowerByte = mOpenText) :
    tryBlockHere (vP ++ (w1 ++ (vT ++ X))) = findTextEnd X := by
  unfold tryBlockHere
  rw [matchCI_append_of_var vP mOpenPage _ hP, if_pos rfl]
  rw [drop_append_len vP _ 6 (var_length vP mOpenPage hP)]
  rw [skipWs_append_ws w1 _ hw1, skipWs_var_head vT _ _ hT]
  rw [matchCI_append_of_var vT mOpenText _ hT, if_pos rfl]
  rw [drop_append_len vT X 6 (var_length vT mOpenText hT)]

/-! #### Well-formed page blocks and the C4 round-trip -/

/-- A well-formed page block of a raw response, with each marker written in
an arbitrary letter case (`mPage` is the `<PAGE>` occurrence, etc.),
optional whitespace before the block and around the markers where the
grammar allows it (`\s*` positions), and the two captured fields. -/
structure RawBlock where
  ws0 : List Nat
  mPage : List Nat
  ws1 : List Nat
  mText : List Nat
  txt : List Nat
  mCText : List Nat
  ws2 : List Nat
  mImage : List Nat
  desc : List Nat
  mCImage : List Nat

/-- The bytes of the block as they appear in the raw response. -/
def RawBlock.render (b : RawBlock) : List Nat :=
  b.ws0 ++ (b.mPage ++ (b.ws1 ++ (b.mText ++ (b.txt ++ (b.mCText ++
    (b.ws2 ++ (b.mImage ++ (b.desc ++ b.mCImage))))))))

/-- Well-formedness: the markers are case variants of the grammar's
markers, the `\s*` slots hold only whitespace, and each captured field
contains no `<` byte and at least one non-whitespace byte. -/
def RawBlock.WF (b : RawBlock) : Prop :=
  b.mPage.map lowerByte = mOpenPage ∧
  b.mText.map lowerByte = mOpenText ∧
  b.mCText.map lowerByte = mCloseText ∧
  b.mImage.map lowerByte = mOpenImage ∧
  b.mCImage.map lowerByte = mCloseImage ∧
  (∀ c ∈ b.ws0, isWs c = true) ∧
  (∀ c ∈ b.ws1, isWs c = true) ∧
  (∀ c ∈ b.ws2, isWs c = true) ∧
  (∀ c ∈ b.txt, c ≠ 60) ∧
  (∀ c ∈ b.desc, c ≠ 60) ∧
  (∃ c ∈ b.txt, isWs c = false) ∧
  (∃ c ∈ b.desc, isWs c = false)

instance : DecidablePred RawBlock.WF := fun b => by
  unfold RawBlock.WF
  infer_instance

/-- Scanning a well-formed block at the head of the input yields exactly
its two captures and resumes right after the block. -/
theorem findBlocks_wf_block (b : RawBlock) (hb : b.WF) (r : List Nat) :
    findBlocks (b.render ++ r) = (b.txt, b.desc) :: findBlocks r := by
  obtain ⟨hP, hT, hCT, hIm, hCI, hw0, hw1, hw2, htxt, hdesc, _, _⟩ := hb
  unfold RawBlock.render
  simp only [List.append_assoc]
  rw [findBlocks_skip_ws b.ws0 hw0]
  have htb : tryBlockHere (b.mPage ++ (b.ws1 ++ (b.mText ++ (b.txt ++
      (b.mCText ++ (b.ws2 ++ (b.mImage ++ (b.desc ++ (b.mCImage ++ r))))))))) =
      some (b.txt, b.desc, r) := by
    rw [tryBlockHere_page b.mPage b.ws1 b.mText _ hP hw1 hT]
    rw [findTextEnd_skip_no60 b.txt htxt _]
    rw [findTextEnd_at_closeText b.mCText b.ws2 b.mImage b.desc b.mCImage r
      hCT hw2 hIm hdesc hCI]
    simp
  obtain ⟨a, v2, hva, _, _⟩ := var_cons b.mPage 60 _ hP
  rw [hva] at htb ⊢
  simp only [List.cons_append] at htb ⊢
  exact findBlocks_cons_some a _ b.txt b.desc r htb

/-- The raw response consisting of the given blocks in order. -/
def rendersConcat : List RawBlock → List Nat
  | [] => []
  | b :: bs => b.render ++ rendersConcat bs

theorem findBlocks_renders_append (bs : List RawBlock) (h : ∀ b ∈ bs, b.WF)
    (r : List Nat) :
    findBlocks (rendersConcat bs ++ r) =
      bs.map (fun b => (b.txt, b.desc)) ++ findBlocks r := by
  induction bs with
  | nil => simp [rendersConcat]
  | cons b bs2 ih =>
      show findBlocks ((b.render ++ rendersConcat bs2) ++ r) = _
      rw [List.append_assoc, findBlocks_wf_block b (h b (List.mem_cons_self b bs2)) _,
        ih (fun x hx => h x (List.mem_cons_of_mem b hx))]
      rfl

theorem mem_dropWhile_of_not (p : Nat → Bool) (l : List Nat) (c : Nat)
    (hc : c ∈ l) (hp : p c = false) : c ∈ l.dropWhile p := by
  induction l with
  | nil => cases hc
  | cons a t ih =>
      rw [List.dropWhile_cons]
      split
      · rename_i hpa
        rcases List.mem_cons.mp hc with rfl | hct
        · rw [hpa] at hp; cases hp
        · exact ih hct
      · exact hc

theorem strip_ne_nil (l : List Nat) (h : ∃ c ∈ l, isWs c = false) :
    strip l ≠ [] := by
  obtain ⟨c, hc, hcw⟩ := h
  unfold strip
  intro he
  have h1 : c ∈ l.dropWhile isWs := mem_dropWhile_of_not isWs l c hc hcw
  have h2 : c ∈ (l.dropWhile isWs).reverse := List.mem_reverse.mpr h1
  have h3 : c ∈ (l.dropWhile isWs).reverse.dropWhile isWs :=
    mem_dropWhile_of_not isWs _ c h2 hcw
  have h4 : c ∈ ((l.dropWhile isWs).reverse.dropWhile isWs).reverse :=
    List.mem_reverse.mpr h3
  rw [he] at h4
  cases h4

/-- C4: a raw response consisting of N well-formed page blocks (markers in
any letter case) parses to exactly N records, in block order, each record
being the stripped text and stripped illustration description of its
block, and both stripped fields are non-empty. -/
theorem parse_well_formed (bs : List RawBlock) (h : ∀ b ∈ bs, b.WF) :
    parseResponse (rendersConcat bs) =
      bs.map (fun b => (strip b.txt, strip b.desc)) ∧
    (parseResponse (rendersConcat bs)).length = bs.length ∧
    (∀ pr ∈ parseResponse (rendersConcat bs), pr.1 ≠ [] ∧ pr.2 ≠ []) := by
  have hfb : findBlocks (rendersConcat bs) = bs.map (fun b => (b.txt, b.desc)) := by
    have h0 := findBlocks_renders_append bs h []
    have h1 : findBlocks ([] : List Nat) = [] := rfl
    rw [h1] at h0
    exact ((congrArg findBlocks (List.append_nil (rendersConcat bs))).symm.trans h0).trans
      (List.append_nil _)
  refine ⟨?_, ?_, ?_⟩
  · unfold parseResponse
    rw [hfb, List.map_map]
    rfl
  · unfold parseResponse
    rw [hfb]
    simp
  · intro pr hpr
    unfold parseResponse at hpr
    rw [hfb, List.map_map] at hpr
    obtain ⟨b, hbmem, hbeq⟩ := List.mem_map.mp hpr
    obtain ⟨_, _, _, _, _, _, _, _, _, _, hex1, hex2⟩ := h b hbmem
    rw [← hbeq]
    exact ⟨strip_ne_nil b.txt hex1, strip_ne_nil b.desc hex2⟩

/-- Witness for `parse_well_formed`: two concrete blocks, the first with
mixed-case markers and internal whitespace, parse to their two stripped
records. -/
theorem parse_well_formed_witness :
    (∀ b ∈ [RawBlock.mk [] [60, 80, 97, 71, 101, 62] [10] [60, 84, 69, 88, 84, 62]
        [32, 104, 105, 32] [60, 47, 84, 101, 88, 116, 62] [32]
        [60, 73, 77, 65, 71, 69, 62] [100, 111, 103] [60, 47, 73, 77, 65, 71, 69, 62],
      RawBlock.mk [] [60, 112, 97, 103, 101, 62] [] [60, 116, 101, 120, 116, 62]
        [121, 111] [60, 47, 116, 101, 120, 116, 62] []
        [60, 105, 109, 97, 103, 101, 62] [99, 97, 116] [60, 47, 105, 109, 97, 103, 101, 62]],
      b.WF) ∧
    parseResponse (rendersConcat
      [RawBlock.mk [] [60, 80, 97, 71, 101, 62] [10] [60, 84, 69, 88, 84, 62]
        [32, 104, 105, 32] [60, 47, 84, 101, 88, 116, 62] [32]
        [60, 73, 77, 65, 71, 69, 62] [100, 111, 103] [60, 47, 73, 77, 65, 71, 69, 62],
      RawBlock.mk [] [60, 112, 97, 103, 101, 62] [] [60, 116, 101, 120, 116, 62]
        [121, 111] [60, 47, 116, 101, 120, 116, 62] []
        [60, 105, 109, 97, 103, 101, 62] [99, 97, 116] [60, 47, 105, 109, 97, 103, 101, 62]]) =
      [([104, 105], [100, 111, 103]), ([121, 111], [99, 97, 116])] :=
  ⟨by decide,
   ((parse_well_formed
      [RawBlock.mk [] [60, 80, 97, 71, 101, 62] [10] [60, 84, 69, 88, 84, 62]
        [32, 104, 105, 32] [60, 47, 84, 101, 88, 116, 62] [32]
        [60, 73, 77, 65, 71, 69, 62] [100, 111, 103] [60, 47, 73, 77, 65, 71, 69, 62],
      RawBlock.mk [] [60, 112, 97, 103, 101, 62] [] [60, 116, 101, 120, 116, 62]
        [121, 111] [60, 47, 116, 101, 120, 116, 62] []
        [60, 105, 109, 97, 103, 101, 62] [99, 97, 116] [60, 47, 105, 109, 97, 103, 101, 62]]
      (by decide)).1).trans (by decide)⟩

/-! #### Malformed blocks (C5): a page block missing its illustration -/

/-- A malformed page block: `<PAGE>`, `<TEXT>`, text, `</TEXT>`, possibly
trailing whitespace — but no `<IMAGE>`/`</IMAGE>` part. -/
structure MalBlock where
  ws0 : List Nat
  mPage : List Nat
  ws1 : List Nat
  mText : List Nat
  txt : List Nat
  mCText : List Nat
  ws3 : List Nat

/-- The bytes of the malformed block in the raw response. -/
def MalBlock.render (m : MalBlock) : List Nat :=
  m.ws0 ++ (m.mPage ++ (m.ws1 ++ (m.mText ++ (m.txt ++ (m.mCText ++ m.ws3)))))

/-- Well-formedness of the malformed block's pieces. -/
def MalBlock.WF (m : MalBlock) : Prop :=
  m.mPage.map lowerByte = mOpenPage ∧
  m.mText.map lowerByte = mOpenText ∧
  m.mCText.map lowerByte = mCloseText ∧
  (∀ c ∈ m.ws0, isWs c = true) ∧
  (∀ c ∈ m.ws1, isWs c = true) ∧
  (∀ c ∈ m.ws3, isWs c = true) ∧
  (∀ c ∈ m.txt, c ≠ 60)

instance : DecidablePred MalBlock.WF := fun m => by
  unfold MalBlock.WF
  infer_instance

theorem tryHere_none_of_matchCT_false (c : Nat) (cs : List Nat)
    (h : matchCI mCloseText (c :: cs) = false) : tryHere (c :: cs) = none := by
  unfold tryHere
  rw [h, if_neg (by decide)]

theorem matchCI_false_var2 (pat : List Nat) (p1 p2 : Nat) (ps : List Nat)
    (hpat : pat = p1 :: p2 :: ps) (v : List Nat) (q1 q2 : Nat) (qs : List Nat)
    (hv : v.map lowerByte = q1 :: q2 :: qs) (hne : q2 ≠ p2) (X : List Nat) :
    matchCI pat (v ++ X) = false := by
  obtain ⟨a, v2, rfl, ha, hv2⟩ := var_cons v q1 _ hv
  obtain ⟨b, v3, rfl, hb, _⟩ := var_cons v2 q2 _ hv2
  simp only [List.cons_append]
  exact matchCI_false_head2 pat p1 p2 ps hpat a b _ (by rw [hb]; exact hne)

/-- `findTextEnd` passes over a `</text>` variant whose following
`\s*<image>` check fails, capturing its bytes into the lazy group. -/
theorem findTextEnd_skip_closeTextVar (v X : List Nat)
    (hv : v.map lowerByte = mCloseText)
    (hX : matchCI mOpenImage (skipWs X) = false) :
    findTextEnd (v ++ X) =
      (findTextEnd X).map (fun pr => (v ++ pr.1, pr.2.1, pr.2.2)) := by
  have hth : tryHere (v ++ X) = none := tryHere_closeText_none v X hv hX
  obtain ⟨a, v2, hva, ha, hv2⟩ := var_cons v 60 _ hv
  subst hva
  simp only [List.cons_append] at hth ⊢
  rw [findTextEnd_cons_none a _ hth]
  rw [findTextEnd_skip_no60 v2 (var_mem_ne60 v2 _ hv2 (by decide)) X]
  cases h : findTextEnd X <;> simp [h]

/-- `findTextEnd` passes over a case variant of a marker other than
`</text>` (second pattern byte not `/`), capturing its bytes. -/
theorem findTextEnd_skip_var (v : List Nat) (p2 : Nat) (ps : List Nat)
    (X : List Nat) (hv : v.map lowerByte = 60 :: p2 :: ps) (h47 : p2 ≠ 47)
    (hno60 : ∀ p ∈ p2 :: ps, p ≠ 60) :
    findTextEnd (v ++ X) =
      (findTextEnd X).map (fun pr => (v ++ pr.1, pr.2.1, pr.2.2)) := by
  have hmf : matchCI mCloseText (v ++ X) = false :=
    matchCI_false_var2 mCloseText 60 47 _ rfl v 60 p2 _ hv h47 X
  obtain ⟨a, v2, hva, ha, hv2⟩ := var_cons v 60 _ hv
  subst hva
  simp only [List.cons_append] at hmf ⊢
  rw [findTextEnd_cons_none a _ (tryHere_none_of_matchCT_false a _ hmf)]
  rw [findTextEnd_skip_no60 v2 (var_mem_ne60 v2 _ hv2 hno60) X]
  cases h : findTextEnd X <;> simp [h]

/-- `findBlocks` passes over a case variant of a marker other than
`<page>` (second pattern byte not `p`) without starting a match. -/
theorem findBlocks_skip_var (v : List Nat) (p2 : Nat) (ps : List Nat)
    (X : List Nat) (hv : v.map lowerByte = 60 :: p2 :: ps) (hp : p2 ≠ 112)
    (hno60 : ∀ p ∈ p2 :: ps, p ≠ 60) :
    findBlocks (v ++ X) = findBlocks X := by
  have hmf : matchCI mOpenPage (v ++ X) = false :=
    matchCI_false_var2 mOpenPage 60 112 _ rfl v 60 p2 _ hv hp X
  obtain ⟨a, v2, hva, ha, hv2⟩ := var_cons v 60 _ hv
  subst hva
  simp only [List.cons_append] at hmf ⊢
  have htb : tryBlockHere (a :: (v2 ++ X)) = none := by
    unfold tryBlockHere
    rw [hmf, if_neg (by decide)]
  rw [findBlocks_cons_none a _ htb]
  exact findBlocks_skip_no60 v2 (var_mem_ne60 v2 _ hv2 hno60) X

/-- Scanning a malformed block at the end of the input yields nothing. -/
theorem findBlocks_mal_trailing (m : MalBlock) (hm : m.WF) :
    findBlocks m.render = [] := by
  obtain ⟨hPm, hTm, hCTm, hw0, hw1, hw3, htxtm⟩ := hm
  unfold MalBlock.render
  rw [findBlocks_skip_ws m.ws0 hw0]
  have hX : matchCI mOpenImage (skipWs m.ws3) = false := by
    have h4 := skipWs_append_ws m.ws3 [] hw3
    rw [List.append_nil] at h4
    rw [h4]
    rfl
  have htb : tryBlockHere (m.mPage ++ (m.ws1 ++ (m.mText ++
      (m.txt ++ (m.mCText ++ m.ws3))))) = none := by
    rw [tryBlockHere_page m.mPage m.ws1 m.mText _ hPm hw1 hTm]
    rw [findTextEnd_skip_no60 m.txt htxtm _]
    rw [findTextEnd_skip_closeTextVar m.mCText m.ws3 hCTm hX]
    have h3 : findTextEnd m.ws3 = none := by
      have h4 := findTextEnd_skip_no60 m.ws3
        (fun c hc => isWs_ne_60 c (hw3 c hc)) []
      rw [List.append_nil] at h4
      rw [h4]
      rfl
    rw [h3]
    rfl
  obtain ⟨a, v2, hva, _, hv2⟩ := var_cons m.mPage 60 _ hPm
  rw [hva] at htb ⊢
  simp only [List.cons_append] at htb ⊢
  rw [findBlocks_cons_none a _ htb]
  rw [findBlocks_skip_no60 v2 (var_mem_ne60 v2 _ hv2 (by decide)) _]
  rw [findBlocks_skip_ws m.ws1 hw1]
  rw [findBlocks_skip_var m.mText 116 _ _ hTm (by decide) (by decide)]
  rw [findBlocks_skip_no60 m.txt htxtm]
  rw [findBlocks_skip_var m.mCText 47 _ _ hCTm (by decide) (by decide)]
  have h5 := findBlocks_skip_ws m.ws3 hw3 []
  rw [List.append_nil] at h5
  rw [h5]
  rfl

/-- Scanning a malformed block directly followed by a well-formed block
produces a single merged record: the malformed block's text, its close
marker, and the following block's opening bytes are all captured into the
text field, and the following block's description becomes the image
field. -/
theorem findBlocks_mal_merge (m : MalBlock) (hm : m.WF) (b : RawBlock)
    (hb : b.WF) (r : List Nat) :
    findBlocks (m.render ++ (b.render ++ r)) =
      (m.txt ++ (m.mCText ++ (m.ws3 ++ (b.ws0 ++ (b.mPage ++ (b.ws1 ++
        (b.mText ++ b.txt)))))), b.desc) :: findBlocks r := by
  obtain ⟨hPm, hTm, hCTm, hw0m, hw1m, hw3, htxtm⟩ := hm
  obtain ⟨hP, hT, hCT, hIm, hCI, hw0, hw1, hw2, htxt, hdesc, _, _⟩ := hb
  unfold MalBlock.render RawBlock.render
  simp only [List.append_assoc]
  rw [findBlocks_skip_ws m.ws0 hw0m]
  have hX : matchCI mOpenImage (skipWs (m.ws3 ++ (b.ws0 ++ (b.mPage ++
      (b.ws1 ++ (b.mText ++ (b.txt ++ (b.mCText ++ (b.ws2 ++ (b.mImage ++
        (b.desc ++ (b.mCImage ++ r)))))))))))) = false := by
    rw [skipWs_append_ws m.ws3 _ hw3, skipWs_append_ws b.ws0 _ hw0,
      skipWs_var_head b.mPage _ _ hP]
    exact matchCI_false_var2 mOpenImage 60 105 _ rfl b.mPage 60 112 _ hP
      (by decide) _
  have htb : tryBlockHere (m.mPage ++ (m.ws1 ++ (m.mText ++ (m.txt ++
      (m.mCText ++ (m.ws3 ++ (b.ws0 ++ (b.mPage ++ (b.ws1 ++ (b.mText ++
        (b.txt ++ (b.mCText ++ (b.ws2 ++ (b.mImage ++ (b.desc ++
          (b.mCImage ++ r)))))))))))))))) =
      some (m.txt ++ (m.mCText ++ (m.ws3 ++ (b.ws0 ++ (b.mPage ++ (b.ws1 ++
        (b.mText ++ b.txt)))))), b.desc, r) := by
    rw [tryBlockHere_page m.mPage m.ws1 m.mText _ hPm hw1m hTm]
    rw [findTextEnd_skip_no60 m.txt htxtm _]
    rw [findTextEnd_skip_closeTextVar m.mCText _ hCTm hX]
    rw [findTextEnd_skip_no60 m.ws3 (fun c hc => isWs_ne_60 c (hw3 c hc)) _]
    rw [findTextEnd_skip_no60 b.ws0 (fun c hc => isWs_ne_60 c (hw0 c hc)) _]
    rw [findTextEnd_skip_var b.mPage 112 _ _ hP (by decide) (by decide)]
    rw [findTextEnd_skip_no60 b.ws1 (fun c hc => isWs_ne_60 c (hw1 c hc)) _]
    rw [findTextEnd_skip_var b.mText 116 _ _ hT (by decide) (by decide)]
    rw [findTextEnd_skip_no60 b.txt htxt _]
    rw [findTextEnd_at_closeText b.mCText b.ws2 b.mImage b.desc b.mCImage r
      hCT hw2 hIm hdesc hCI]
    simp
  obtain ⟨a, v2, hva, _, hv2⟩ := var_cons m.mPage 60 _ hPm
  rw [hva] at htb ⊢
  simp only [List.cons_append] at htb ⊢
  exact findBlocks_cons_some a _ _ _ r htb

/-- C5 counterexample: the raw response
`<page><text>one</text><page><text>two</text><image>cat</image>` holds one
well-formed block plus one malformed block (missing its illustration
marker) before it.  The parser yields exactly one record, but not the
well-formed block's clean record: the malformed block is merged into the
following record's text field instead of being dropped without effect. -/
theorem parse_malformed_merge_counterexample :
    parseResponse [60, 112, 97, 103, 101, 62, 60, 116, 101, 120, 116, 62,
        111, 110, 101, 60, 47, 116, 101, 120, 116, 62, 60, 112, 97, 103,
        101, 62, 60, 116, 101, 120, 116, 62, 116, 119, 111, 60, 47, 116,
        101, 120, 116, 62, 60, 105, 109, 97, 103, 101, 62, 99, 97, 116,
        60, 47, 105, 109, 97, 103, 101, 62] ≠
      [([116, 119, 111], [99, 97, 116])] ∧
    (parseResponse [60, 112, 97, 103, 101, 62, 60, 116, 101, 120, 116, 62,
        111, 110, 101, 60, 47, 116, 101, 120, 116, 62, 60, 112, 97, 103,
        101, 62, 60, 116, 101, 120, 116, 62, 116, 119, 111, 60, 47, 116,
        101, 120, 116, 62, 60, 105, 109, 97, 103, 101, 62, 99, 97, 116,
        60, 47, 105, 109, 97, 103, 101, 62]).length = 1 := by
  decide

/-- C5 (amended): a raw response of N well-formed blocks plus one
malformed block (a page block missing its illustration marker), at any
position among them, parses to exactly N records — never N+1, never
zero.  A trailing malformed block is dropped cleanly; a malformed block
followed by a well-formed one merges into that block's record instead of
being dropped without effect. -/
theorem parse_malformed_count (wfs1 wfs2 : List RawBlock) (m : MalBlock)
    (h1 : ∀ b ∈ wfs1, b.WF) (h2 : ∀ b ∈ wfs2, b.WF) (hm : m.WF) :
    (parseResponse (rendersConcat wfs1 ++ (m.render ++ rendersConcat wfs2))).length =
      wfs1.length + wfs2.length := by
  unfold parseResponse
  rw [List.length_map]
  rw [findBlocks_renders_append wfs1 h1 _]
  rw [List.length_append, List.length_map]
  cases wfs2 with
  | nil =>
      have h0 : m.render ++ rendersConcat [] = m.render := by
        rw [show rendersConcat [] = [] from rfl, List.append_nil]
      rw [h0, findBlocks_mal_trailing m hm]
      rfl
  | cons b bs2 =>
      rw [show rendersConcat (b :: bs2) = b.render ++ rendersConcat bs2 from rfl]
      rw [findBlocks_mal_merge m hm b (h2 b (List.mem_cons_self b bs2))
        (rendersConcat bs2)]
      have hb2 : findBlocks (rendersConcat bs2) =
          bs2.map (fun x => (x.txt, x.desc)) := by
        have h0 := findBlocks_renders_append bs2
          (fun x hx => h2 x (List.mem_cons_of_mem b hx)) []
        have h1b : findBlocks ([] : List Nat) = [] := rfl
        rw [h1b] at h0
        exact ((congrArg findBlocks
          (List.append_nil (rendersConcat bs2))).symm.trans h0).trans
          (List.append_nil _)
      rw [List.length_cons, hb2, List.length_map, List.length_cons]

/-- Witness for `parse_malformed_count`: a malformed block followed by one
well-formed block parses to exactly one record. -/
theorem parse_malformed_count_witness :
    (∀ b ∈ ([] : List RawBlock), b.WF) ∧
    (∀ b ∈ [RawBlock.mk [] [60, 112, 97, 103, 101, 62] [] [60, 116, 101, 120, 116, 62]
        [121, 111] [60, 47, 116, 101, 120, 116, 62] []
        [60, 105, 109, 97, 103, 101, 62] [99, 97, 116]
        [60, 47, 105, 109, 97, 103, 101, 62]], b.WF) ∧
    (MalBlock.mk [] [60, 112, 97, 103, 101, 62] [] [60, 116, 101, 120, 116, 62]
        [111, 110, 101] [60, 47, 116, 101, 120, 116, 62] []).WF ∧
    (parseResponse (rendersConcat [] ++
      ((MalBlock.mk [] [60, 112, 97, 103, 101, 62] [] [60, 116, 101, 120, 116, 62]
        [111, 110, 101] [60, 47, 116, 101, 120, 116, 62] []).render ++
       rendersConcat [RawBlock.mk [] [60, 112, 97, 103, 101, 62] []
        [60, 116, 101, 120, 116, 62] [121, 111] [60, 47, 116, 101, 120, 116, 62] []
        [60, 105, 109, 97, 103, 101, 62] [99, 97, 116]
        [60, 47, 105, 109, 97, 103, 101, 62]]))).length = 0 + 1 :=
  ⟨by decide, by decide, by decide,
   parse_malformed_count []
     [RawBlock.mk [] [60, 112, 97, 103, 101, 62] [] [60, 116, 101, 120, 116, 62]
        [121, 111] [60, 47, 116, 101, 120, 116, 62] []
        [60, 105, 109, 97, 103, 101, 62] [99, 97, 116]
        [60, 47, 105, 109, 97, 103, 101, 62]]
     (MalBlock.mk [] [60, 112, 97, 103, 101, 62] [] [60, 116, 101, 120, 116, 62]
        [111, 110, 101] [60, 47, 116, 101, 120, 116, 62] [])
     (by decide) (by decide) (by decide)⟩

end GAIM
